import Mathlib

/-!
Shallow embedding of src/packaging/macos/launcher.c.

The launcher is a single C main function: it canonicalizes its own
executable path with realpath, truncates that path at the first
occurrence of the substring "/Contents/" to obtain the bundle root,
appends fixed suffixes to build the resources directory path and the
launch script path, stats the script, chdirs into the resources
directory, and finally replaces the process image with the script via
execl. Every failing OS call prints a diagnostic to stderr, frees the
realpath buffer when it exists, and exits with status 1.

C byte strings are modelled as lists of characters (the bytes before
the terminating NUL). Each snprintf into a char[1024] buffer writes at
most 1023 characters plus a NUL terminator; its bounded-write,
always-NUL-terminated semantics is embedded as truncation of the ideal
formatted string to 1023 characters. The OS calls (realpath, stat,
chdir, execl) are modelled by an oracle structure, and main is a pure
function from that oracle, the argument vector and the inherited
environment to a run result recording the process outcome, the stderr
messages, the trace of OS calls issued, and how many times the
realpath buffer was freed.
-/

namespace Launcher

/-- A C byte string: the characters before the terminating NUL. -/
abbrev CStr := List Char

/-- The marker substring searched for by strstr on line 22 of launcher.c. -/
def marker : CStr := "/Contents/".data

/-- Relative suffix appended to the bundle root to form resources_path (line 27). -/
def resourcesSuffix : CStr := "/Contents/Resources".data

/-- Relative suffix appended to the bundle root to form script_path (line 28). -/
def scriptSuffix : CStr := "/Contents/Resources/launcher.sh".data

/-- Semantics of snprintf(buf, sizeof(buf), ...) with sizeof(buf) = 1024:
at most 1023 characters are stored and the buffer is always NUL-terminated,
so the stored string is the ideal formatted string truncated to 1023
characters. -/
def snprintf1024 (s : CStr) : CStr := s.take 1023

/-- Index of the first occurrence of the marker in the haystack, as computed
by strstr(app_path, "/Contents/") on line 22: none when the marker does not
occur. -/
def strstrMarker : CStr → Option Nat
  | [] => none
  | c :: cs =>
    if marker <+: c :: cs then some 0
    else (strstrMarker cs).map (· + 1)

/-- Contents of the app_path buffer after lines 21 to 25: a bounded copy of
the canonical executable path, truncated in place at the first occurrence
of the marker when strstr finds one. -/
def app_path (executable_path : CStr) : CStr :=
  match strstrMarker (snprintf1024 executable_path) with
  | some i => (snprintf1024 executable_path).take i
  | none => snprintf1024 executable_path

/-- Contents of the resources_path buffer after line 27. -/
def resources_path (executable_path : CStr) : CStr :=
  snprintf1024 (app_path executable_path ++ resourcesSuffix)

/-- Contents of the script_path buffer after line 28. -/
def script_path (executable_path : CStr) : CStr :=
  snprintf1024 (app_path executable_path ++ scriptSuffix)

/-- Diagnostic printed when realpath fails (line 16). -/
def msgResolve : CStr := "Error: Could not resolve executable path\n".data

/-- Fixed part of the format string of the stat-failure diagnostic. -/
def msgNotFoundPre : CStr := "Error: Launcher script not found at ".data

/-- Diagnostic printed when stat on the script path fails (line 33); the
format string interpolates the script path before the newline. -/
def msgNotFound (p : CStr) : CStr := msgNotFoundPre ++ p ++ ['\n']

/-- Diagnostic printed when chdir fails (line 40). -/
def msgChdir : CStr := "Error: Could not change to resources directory\n".data

/-- Diagnostic printed when execl returns (line 49). -/
def msgExec : CStr := "Error: Failed to execute launcher script\n".data

/-- The process environment, NAME to VALUE bindings, inherited across execl. -/
abbrev Environ := List (CStr × CStr)

/-- Oracle giving the result of each OS call the launcher can make. -/
structure OS where
  realpath : CStr → Option CStr
  statOk : CStr → Bool
  chdirOk : CStr → Bool
  execOk : CStr → Bool

/-- OS calls the launcher issues, recorded in order. -/
inductive Event
  | realpathCall (arg : CStr)
  | statCall (p : CStr)
  | chdirCall (p : CStr)
  | execCall (p : CStr)
deriving DecidableEq

/-- Final fate of the launcher process: exit with a status, or replacement
of the process image by execl with the given image, argument vector,
working directory and environment. -/
inductive Outcome
  | exited (status : Nat)
  | replaced (image : CStr) (argv : List CStr) (cwd : CStr) (env : Environ)
deriving DecidableEq

/-- Observable result of one launcher run. frees counts calls to
free(executable_path). -/
structure RunResult where
  outcome : Outcome
  stderrMsgs : List CStr
  trace : List Event
  frees : Nat
deriving DecidableEq

/-- The main function of launcher.c (lines 7 to 52). realpath(argv[0], NULL)
is modelled by the oracle; on success the canonical path feeds the path
construction of lines 21 to 28, then stat, chdir and execl run in order,
each failure printing its diagnostic, freeing the realpath buffer and
exiting with status 1. A successful execl replaces the image with the
script, passing the script path as the sole argv entry (execl(script_path,
script_path, NULL)), with the working directory already changed to the
resources directory and the environment inherited unchanged; nothing from
argvRest is forwarded. -/
def run (os : OS) (argv0 : CStr) (_argvRest : List CStr) (environ : Environ) :
    RunResult :=
  match os.realpath argv0 with
  | none =>
    { outcome := .exited 1,
      stderrMsgs := [msgResolve],
      trace := [.realpathCall argv0],
      frees := 0 }
  | some executable_path =>
    let sp := script_path executable_path
    let rp := resources_path executable_path
    if os.statOk sp then
      if os.chdirOk rp then
        if os.execOk sp then
          { outcome := .replaced sp [sp] rp environ,
            stderrMsgs := [],
            trace := [.realpathCall argv0, .statCall sp, .chdirCall rp,
                      .execCall sp],
            frees := 0 }
        else
          { outcome := .exited 1,
            stderrMsgs := [msgExec],
            trace := [.realpathCall argv0, .statCall sp, .chdirCall rp,
                      .execCall sp],
            frees := 1 }
      else
        { outcome := .exited 1,
          stderrMsgs := [msgChdir],
          trace := [.realpathCall argv0, .statCall sp, .chdirCall rp],
          frees := 1 }
    else
      { outcome := .exited 1,
        stderrMsgs := [msgNotFound sp],
        trace := [.realpathCall argv0, .statCall sp],
        frees := 1 }

/-! Helper lemmas about the embedded definitions. -/

/-- Truncation to the buffer yields a prefix of the ideal string. -/
theorem take_pre {α : Type} (n : Nat) (l : List α) : l.take n <+: l :=
  ⟨l.drop n, List.take_append_drop n l⟩

/-- When strstr reports an occurrence, the marker is really there. -/
theorem strstrMarker_sound {l : CStr} :
    ∀ {i : Nat}, strstrMarker l = some i → marker <+: l.drop i := by
  induction l with
  | nil => intro i h; simp [strstrMarker] at h
  | cons c cs ih =>
    intro i h
    simp only [strstrMarker] at h
    split at h
    · next hp => cases h; simpa using hp
    · next hp =>
      rcases Option.map_eq_some'.mp h with ⟨j, hj, rfl⟩
      simpa using ih hj

/-- When the marker occurs at some position, strstr finds an occurrence no
later than it. -/
theorem strstrMarker_complete {l : CStr} :
    ∀ {j : Nat}, marker <+: l.drop j → ∃ i, strstrMarker l = some i ∧ i ≤ j := by
  induction l with
  | nil =>
    intro j h
    rw [List.drop_nil, List.prefix_nil] at h
    exact absurd h (by decide)
  | cons c cs ih =>
    intro j h
    match j with
    | 0 =>
      simp only [List.drop_zero] at h
      exact ⟨0, by simp only [strstrMarker, if_pos h], Nat.le_refl 0⟩
    | j' + 1 =>
      by_cases hp : marker <+: c :: cs
      · exact ⟨0, by simp only [strstrMarker, if_pos hp], Nat.zero_le _⟩
      · simp only [List.drop_succ_cons] at h
        rcases ih h with ⟨i', hi', hle⟩
        refine ⟨i' + 1, ?_, Nat.succ_le_succ hle⟩
        simp only [strstrMarker, if_neg hp, hi', Option.map_some']

/-- The occurrence strstr reports is the first one. -/
theorem strstrMarker_min {l : CStr} :
    ∀ {i : Nat}, strstrMarker l = some i → ∀ k, k < i → ¬ marker <+: l.drop k := by
  induction l with
  | nil => intro i h; simp [strstrMarker] at h
  | cons c cs ih =>
    intro i h k hk
    simp only [strstrMarker] at h
    split at h
    · next hp => cases h; exact absurd hk (Nat.not_lt_zero k)
    · next hp =>
      rcases Option.map_eq_some'.mp h with ⟨j, hj, rfl⟩
      match k with
      | 0 => simpa using hp
      | k' + 1 =>
        simp only [List.drop_succ_cons]
        exact ih hj k' (by omega)

/-- Characterization used to evaluate strstr without running it: a position
that carries the marker and has no earlier occurrence is the strstr result. -/
theorem strstrMarker_eq_of_first {l : CStr} {i : Nat}
    (hocc : marker <+: l.drop i) (hmin : ∀ k, k < i → ¬ marker <+: l.drop k) :
    strstrMarker l = some i := by
  rcases strstrMarker_complete hocc with ⟨i', hi', hle⟩
  rcases Nat.lt_or_ge i' i with hlt | hge
  · exact absurd (strstrMarker_sound hi') (hmin i' hlt)
  · have hii : i' = i := Nat.le_antisymm hle hge
    rwa [hii] at hi'

/-- When no position carries the marker, strstr reports no occurrence. -/
theorem strstrMarker_eq_none {l : CStr}
    (h : ∀ j, ¬ marker <+: l.drop j) : strstrMarker l = none := by
  cases heq : strstrMarker l with
  | none => rfl
  | some i => exact absurd (strstrMarker_sound heq) (h i)

/-- An infix occurrence of the marker gives a positional occurrence. -/
theorem marker_occ_of_infix {l : CStr} (h : marker <:+: l) :
    ∃ j, marker <+: l.drop j := by
  rcases h with ⟨s, t, hst⟩
  refine ⟨s.length, ?_⟩
  rw [← hst, List.append_assoc, List.drop_left]
  exact List.prefix_append marker t

/-- A positional occurrence of the marker gives an infix occurrence. -/
theorem marker_infix_of_occ {l : CStr} {j : Nat} (h : marker <+: l.drop j) :
    marker <:+: l := by
  rcases h with ⟨t, ht⟩
  exact ⟨l.take j, t, by rw [List.append_assoc, ht, List.take_append_drop]⟩

/-- Bounded formatting is the identity on strings that fit the buffer. -/
theorem snprintf1024_of_le {s : CStr} (h : s.length ≤ 1023) :
    snprintf1024 s = s :=
  List.take_of_length_le h

/-- app_path when the canonical path fits the buffer and strstr finds the
marker at index i. -/
theorem app_path_of_found {ep : CStr} {i : Nat} (hlen : ep.length ≤ 1023)
    (hfind : strstrMarker ep = some i) : app_path ep = ep.take i := by
  simp only [app_path, snprintf1024_of_le hlen, hfind]

/-- app_path when the canonical path fits the buffer and strstr finds no
marker. -/
theorem app_path_of_none {ep : CStr} (hlen : ep.length ≤ 1023)
    (hfind : strstrMarker ep = none) : app_path ep = ep := by
  simp only [app_path, snprintf1024_of_le hlen, hfind]

/-- A marker occurrence at position k pins the characters at k and k + 1. -/
theorem marker_occ_chars {l : CStr} {k : Nat} (h : marker <+: l.drop k) :
    l[k]? = some '/' ∧ l[k + 1]? = some 'C' := by
  rcases h with ⟨t, ht⟩
  constructor
  · have h0 : (l.drop k)[0]? = some '/' := by rw [← ht]; rfl
    rwa [List.getElem?_drop, Nat.add_zero] at h0
  · have h1 : (l.drop k)[1]? = some 'C' := by rw [← ht]; rfl
    rwa [List.getElem?_drop] at h1

/-- A long path component: a slash followed by n letters. Used to build
concrete near-buffer-capacity canonical paths. -/
def slashRepl (n : Nat) : CStr := '/' :: List.replicate n 'a'

theorem slashRepl_length (n : Nat) : (slashRepl n).length = n + 1 := by
  simp [slashRepl]

/-- Inside the letter block of a slashRepl component every character is
the letter. -/
theorem slashRepl_append_getElem {n j : Nat} (X : CStr) (h1 : 1 ≤ j)
    (h2 : j ≤ n) : (slashRepl n ++ X)[j]? = some 'a' := by
  obtain ⟨j', rfl⟩ : ∃ j', j = j' + 1 := ⟨j - 1, by omega⟩
  have hj' : j' < n := by omega
  rw [slashRepl, List.cons_append, List.getElem?_cons_succ,
    List.getElem?_append_left (by simpa using hj')]
  exact List.getElem?_replicate_of_lt hj'

/-- The marker cannot start inside the leading slashRepl block: position 0
is followed by a letter where the marker needs an uppercase letter, and
every later position inside the block starts with a letter where the marker
needs a slash. -/
theorem no_marker_in_slashRepl {n k : Nat} (X : CStr) (hn : 1 ≤ n)
    (hk : k ≤ n) (h : marker <+: (slashRepl n ++ X).drop k) : False := by
  obtain ⟨h0, h1⟩ := marker_occ_chars h
  match k with
  | 0 =>
    rw [slashRepl_append_getElem X (by omega) (by omega)] at h1
    exact absurd (Option.some.inj h1) (by decide)
  | k' + 1 =>
    rw [slashRepl_append_getElem X (by omega) (by omega)] at h0
    exact absurd (Option.some.inj h0) (by decide)

/-! Concrete paths used to exercise the buffer-capacity edge cases. -/

/-- Rest of a canonical bundle path after the marker. -/
def tailC1 : CStr := "MacOS/app".data

/-- A 1003-character bundle root: one slash then 1002 letters. -/
def rootC1 : CStr := slashRepl 1002

/-- A 1022-character canonical executable path: the long bundle root, the
marker, then the executable location. It fits the 1024-byte buffer, yet its
root is long enough that appending the script suffix overflows. -/
def epC1 : CStr := rootC1 ++ (marker ++ tailC1)

theorem rootC1_length : rootC1.length = 1003 := by
  rw [rootC1, slashRepl_length]

theorem epC1_length : epC1.length = 1022 := by
  have hm : marker.length = 10 := rfl
  have ht : tailC1.length = 9 := rfl
  rw [epC1, List.length_append, List.length_append, rootC1_length, hm, ht]

theorem epC1_occ : marker <+: epC1.drop 1003 := by
  rw [epC1, List.drop_left' rootC1_length]
  exact List.prefix_append marker tailC1

theorem epC1_min : ∀ k, k < 1003 → ¬ marker <+: epC1.drop k := by
  intro k hk h
  rw [epC1, rootC1] at h
  exact no_marker_in_slashRepl (marker ++ tailC1) (by omega) (by omega) h

theorem epC1_strstr : strstrMarker epC1 = some 1003 :=
  strstrMarker_eq_of_first epC1_occ epC1_min

theorem epC1_app_path : app_path epC1 = rootC1 := by
  rw [app_path_of_found (by rw [epC1_length]; omega) epC1_strstr, epC1,
    List.take_left' rootC1_length]

/-- A typical canonical executable path of a bundled application. -/
def epW : CStr := "/Applications/MyApp.app/Contents/MacOS/launcher".data

/-! Claim C1. -/

/-- Claim C1, counterexample: the canonical path epC1 (1022 characters,
within the realpath bound) contains the marker and its bundle root is the
prefix before the marker, but script_path is NOT that root followed by the
script suffix: the ideal concatenation is 1034 characters and snprintf
truncates it to 1023, so the claim as stated fails. -/
theorem C1_counterexample :
    marker <:+: epC1 ∧ app_path epC1 = rootC1 ∧
    script_path epC1 ≠ rootC1 ++ scriptSuffix := by
  refine ⟨marker_infix_of_occ epC1_occ, epC1_app_path, ?_⟩
  intro h
  have hlen := congrArg List.length h
  simp only [script_path, snprintf1024] at hlen
  rw [List.length_take, List.length_append, List.length_append,
    epC1_app_path, rootC1_length] at hlen
  have h31 : scriptSuffix.length = 31 := rfl
  rw [h31] at hlen
  omega

/-- Claim C1, amended: for every canonical executable path that fits the
1024-byte buffer (realpath results are bounded by PATH_MAX = 1024 on the
target platform), contains the marker, and whose derived bundle root is at
most 992 characters (so that both appended suffixes fit the buffers), the
bundle root is a prefix of the canonical path ending just before an
occurrence of the marker, resources_path is the root followed by
"/Contents/Resources", and script_path is the root followed by
"/Contents/Resources/launcher.sh". -/
theorem C1_bundle_paths (ep : CStr) (hlen : ep.length ≤ 1023)
    (hmark : marker <:+: ep) (hroot : (app_path ep).length ≤ 992) :
    app_path ep ++ marker <+: ep ∧
    resources_path ep = app_path ep ++ resourcesSuffix ∧
    script_path ep = app_path ep ++ scriptSuffix := by
  obtain ⟨j, hj⟩ := marker_occ_of_infix hmark
  obtain ⟨i, hfind, -⟩ := strstrMarker_complete hj
  have happ : app_path ep = ep.take i := app_path_of_found hlen hfind
  have hsound : marker <+: ep.drop i := strstrMarker_sound hfind
  refine ⟨?_, ?_, ?_⟩
  · obtain ⟨t, ht⟩ := hsound
    exact ⟨t, by rw [happ, List.append_assoc, ht, List.take_append_drop]⟩
  · have hfit : (app_path ep ++ resourcesSuffix).length ≤ 1023 := by
      rw [List.length_append]
      have h19 : resourcesSuffix.length = 19 := rfl
      omega
    exact snprintf1024_of_le hfit
  · have hfit : (app_path ep ++ scriptSuffix).length ≤ 1023 := by
      rw [List.length_append]
      have h31 : scriptSuffix.length = 31 := rfl
      omega
    exact snprintf1024_of_le hfit

/-- Claim C1, witness: the amended theorem applied to a typical bundled
canonical path. -/
theorem C1_witness :
    epW.length ≤ 1023 ∧ marker <:+: epW ∧ (app_path epW).length ≤ 992 ∧
    (app_path epW ++ marker <+: epW ∧
     resources_path epW = app_path epW ++ resourcesSuffix ∧
     script_path epW = app_path epW ++ scriptSuffix) :=
  ⟨by decide, by decide, by decide,
    C1_bundle_paths epW (by decide) (by decide) (by decide)⟩

/-! Claim C2. -/

/-- A 993-character canonical path without the marker: one slash then 992
letters. It fits the buffer, but appending the 31-character script suffix
overflows the 1024-byte script buffer. -/
def epC2 : CStr := slashRepl 992

theorem epC2_length : epC2.length = 993 := by
  rw [epC2, slashRepl_length]

theorem epC2_no_occ : ∀ j, ¬ marker <+: epC2.drop j := by
  intro j h
  by_cases hj : j ≤ 992
  · have h' : marker <+: (slashRepl 992 ++ ([] : CStr)).drop j := by
      rwa [List.append_nil]
    exact no_marker_in_slashRepl [] (by omega) hj h'
  · have h0 := (marker_occ_chars h).1
    rw [List.getElem?_eq_none (by rw [epC2_length]; omega)] at h0
    exact Option.noConfusion h0

theorem epC2_app_path : app_path epC2 = epC2 :=
  app_path_of_none (by rw [epC2_length]; omega)
    (strstrMarker_eq_none epC2_no_occ)

/-- Claim C2, counterexample: the marker-free canonical path epC2 fits the
buffer and the bundle root does default to the whole path, but script_path
is NOT the full path followed by the script suffix: the ideal concatenation
is 1024 characters and snprintf truncates it to 1023, so the claim as
stated fails. -/
theorem C2_counterexample :
    ¬ marker <:+: epC2 ∧ app_path epC2 = epC2 ∧
    script_path epC2 ≠ epC2 ++ scriptSuffix := by
  refine ⟨fun h => ?_, epC2_app_path, fun h => ?_⟩
  · obtain ⟨j, hj⟩ := marker_occ_of_infix h
    exact epC2_no_occ j hj
  · have hlen := congrArg List.length h
    simp only [script_path, snprintf1024] at hlen
    rw [List.length_take, List.length_append, List.length_append,
      epC2_app_path, epC2_length] at hlen
    have h31 : scriptSuffix.length = 31 := rfl
    rw [h31] at hlen
    omega

/-- Claim C2, amended: for every canonical executable path of at most 992
characters (so that the appended suffixes fit the fixed buffers) that does
not contain the marker, the bundle root silently defaults to the full
canonical path, resources_path and script_path append the fixed suffixes to
the full path, and when no filesystem entry exists at script_path the stat
validation fails and the process exits with status 1, printing the
script-not-found diagnostic. -/
theorem C2_no_marker_default (ep : CStr) (hlen : ep.length ≤ 992)
    (hnm : ¬ marker <:+: ep) (os : OS) (argv0 : CStr) (argvRest : List CStr)
    (environ : Environ) (hrp : os.realpath argv0 = some ep)
    (hstat : os.statOk (script_path ep) = false) :
    app_path ep = ep ∧
    resources_path ep = ep ++ resourcesSuffix ∧
    script_path ep = ep ++ scriptSuffix ∧
    (run os argv0 argvRest environ).outcome = .exited 1 ∧
    (run os argv0 argvRest environ).stderrMsgs =
      [msgNotFound (script_path ep)] := by
  have hnone : strstrMarker ep = none := by
    apply strstrMarker_eq_none
    intro j hj
    exact hnm (marker_infix_of_occ hj)
  have happ : app_path ep = ep := app_path_of_none (by omega) hnone
  refine ⟨happ, ?_, ?_, ?_, ?_⟩
  · simp only [resources_path, happ]
    exact snprintf1024_of_le
      (by rw [List.length_append]
          have h19 : resourcesSuffix.length = 19 := rfl
          omega)
  · simp only [script_path, happ]
    exact snprintf1024_of_le
      (by rw [List.length_append]
          have h31 : scriptSuffix.length = 31 := rfl
          omega)
  · simp [run, hrp, hstat]
  · simp [run, hrp, hstat]

/-- An out-of-bundle canonical executable path. -/
def epW2 : CStr := "/usr/local/bin/tool".data

/-- An OS oracle under which realpath canonicalizes to epW2 and no
filesystem entry exists anywhere (stat always fails). -/
def osW2 : OS :=
  { realpath := fun _ => some epW2,
    statOk := fun _ => false,
    chdirOk := fun _ => false,
    execOk := fun _ => false }

/-- Claim C2, witness: the amended theorem applied to a short marker-free
canonical path with a stat oracle that fails on every path. -/
theorem C2_witness :
    epW2.length ≤ 992 ∧ ¬ marker <:+: epW2 ∧
    (app_path epW2 = epW2 ∧
     resources_path epW2 = epW2 ++ resourcesSuffix ∧
     script_path epW2 = epW2 ++ scriptSuffix ∧
     (run osW2 epW2 [] []).outcome = .exited 1 ∧
     (run osW2 epW2 [] []).stderrMsgs = [msgNotFound (script_path epW2)]) :=
  ⟨by decide, by decide,
    C2_no_marker_default epW2 (by decide) (by decide) osW2 epW2 [] [] rfl rfl⟩

/-! Claim C10. -/

/-- Claim C10: whenever the canonical path fits the buffer and the marker
occurs at some position j (in particular whenever it occurs more than
once), the bundle root is the prefix of the canonical path before the FIRST
occurrence: there is an i at most j carrying the marker such that app_path
truncates there and no earlier position carries the marker. -/
theorem C10_first_occurrence (ep : CStr) (hlen : ep.length ≤ 1023)
    {j : Nat} (hj : marker <+: ep.drop j) :
    ∃ i, i ≤ j ∧ app_path ep = ep.take i ∧ marker <+: ep.drop i ∧
      ∀ k, k < i → ¬ marker <+: ep.drop k := by
  obtain ⟨i, hfind, hle⟩ := strstrMarker_complete hj
  exact ⟨i, hle, app_path_of_found hlen hfind, strstrMarker_sound hfind,
    strstrMarker_min hfind⟩

/-- A canonical path containing the marker twice, at indices 2 and 13. -/
def epW10 : CStr := "/A/Contents/B/Contents/x".data

/-- The prefix of epW10 before the first marker occurrence. -/
def rootW10 : CStr := "/A".data

/-- Claim C10, witness: on a path with marker occurrences at 2 and 13, the
theorem applied to the later occurrence yields the first one, and the
bundle root is the two-character prefix before it, not the prefix before
the last occurrence. -/
theorem C10_witness :
    epW10.length ≤ 1023 ∧ marker <+: epW10.drop 2 ∧
    marker <+: epW10.drop 13 ∧
    (∃ i, i ≤ 13 ∧ app_path epW10 = epW10.take i ∧
      marker <+: epW10.drop i ∧ ∀ k, k < i → ¬ marker <+: epW10.drop k) ∧
    app_path epW10 = rootW10 :=
  ⟨by decide, by decide, by decide,
    C10_first_occurrence epW10 (by decide) (by decide), by decide⟩

/-! Lemmas about the diagnostics. -/

theorem msgNotFound_ne_msgChdir (p : CStr) : msgNotFound p ≠ msgChdir := by
  intro h
  have h8 := congrArg (List.take 8) h
  rw [msgNotFound,
    List.take_append_of_le_length
      (by rw [List.length_append]
          have h36 : msgNotFoundPre.length = 36 := rfl
          omega),
    List.take_append_of_le_length (by decide)] at h8
  exact absurd h8 (by decide)

theorem msgNotFound_ne_msgExec (p : CStr) : msgNotFound p ≠ msgExec := by
  intro h
  have h8 := congrArg (List.take 8) h
  rw [msgNotFound,
    List.take_append_of_le_length
      (by rw [List.length_append]
          have h36 : msgNotFoundPre.length = 36 := rfl
          omega),
    List.take_append_of_le_length (by decide)] at h8
  exact absurd h8 (by decide)

theorem msgNotFound_ne_nil (p : CStr) : msgNotFound p ≠ [] := by
  intro h
  have hl := congrArg List.length h
  rw [msgNotFound, List.length_append, List.length_append] at hl
  simp at hl

/-- The chdir diagnostic never contains the resources path: when the
resources path fits its buffer it contains a slash and the diagnostic
contains none, and otherwise it is 1023 characters long, longer than the
diagnostic. -/
theorem resources_not_in_msgChdir (ep : CStr) :
    ¬ resources_path ep <:+: msgChdir := by
  intro h
  by_cases hfit : (app_path ep ++ resourcesSuffix).length ≤ 1023
  · rw [show resources_path ep = app_path ep ++ resourcesSuffix from
      snprintf1024_of_le hfit] at h
    have hm : '/' ∈ msgChdir :=
      h.sublist.subset (List.mem_append.mpr (Or.inr (by decide)))
    exact absurd hm (by decide)
  · have hl := h.length_le
    have h47 : msgChdir.length = 47 := rfl
    simp only [resources_path, snprintf1024, List.length_take, h47] at hl
    omega

/-- The exec diagnostic never contains the script path, for the same
reasons. -/
theorem script_not_in_msgExec (ep : CStr) :
    ¬ script_path ep <:+: msgExec := by
  intro h
  by_cases hfit : (app_path ep ++ scriptSuffix).length ≤ 1023
  · rw [show script_path ep = app_path ep ++ scriptSuffix from
      snprintf1024_of_le hfit] at h
    have hm : '/' ∈ msgExec :=
      h.sublist.subset (List.mem_append.mpr (Or.inr (by decide)))
    exact absurd hm (by decide)
  · have hl := h.length_le
    have h41 : msgExec.length = 41 := rfl
    simp only [script_path, snprintf1024, List.length_take, h41] at hl
    omega

/-! Claim C3. -/

/-- Claim C3: on the success path (resolution, stat, chdir and execl all
succeed) the process image is replaced by the program at script_path,
invoked with script_path itself as argument zero and nothing else (in
particular nothing from argvRest), with the working directory set to
resources_path and the environment inherited unmodified; the outcome is a
replacement, not an exit. -/
theorem C3_exec_replacement (os : OS) (argv0 : CStr) (argvRest : List CStr)
    (environ : Environ) (ep : CStr) (hrp : os.realpath argv0 = some ep)
    (hstat : os.statOk (script_path ep) = true)
    (hchdir : os.chdirOk (resources_path ep) = true)
    (hexec : os.execOk (script_path ep) = true) :
    (run os argv0 argvRest environ).outcome =
      Outcome.replaced (script_path ep) [script_path ep]
        (resources_path ep) environ := by
  simp [run, hrp, hstat, hchdir, hexec]

/-- An OS oracle under which every call succeeds and realpath canonicalizes
to the typical bundled path. -/
def osW3 : OS :=
  { realpath := fun _ => some epW,
    statOk := fun _ => true,
    chdirOk := fun _ => true,
    execOk := fun _ => true }

/-- Claim C3, witness: the success path on the typical bundled path, with
an extra original argument that is not forwarded. -/
theorem C3_witness :
    (run osW3 epW [epW2] []).outcome =
      Outcome.replaced (script_path epW) [script_path epW]
        (resources_path epW) [] :=
  C3_exec_replacement osW3 epW [epW2] [] epW rfl rfl rfl rfl

/-! Claim C4. -/

/-- Claim C4: every run either exits with status exactly 1 having written a
diagnostic to the error stream, or ends in process replacement; in
particular no run exits with status 0. -/
theorem C4_exit_one (os : OS) (argv0 : CStr) (argvRest : List CStr)
    (environ : Environ) :
    ((run os argv0 argvRest environ).outcome = Outcome.exited 1 ∧
      (run os argv0 argvRest environ).stderrMsgs ≠ []) ∨
    ∃ img argv cwd env,
      (run os argv0 argvRest environ).outcome =
        Outcome.replaced img argv cwd env := by
  cases hr : os.realpath argv0 with
  | none =>
    left
    constructor
    · simp [run, hr]
    · simp [run, hr, msgResolve]
  | some ep =>
    by_cases h1 : os.statOk (script_path ep) = true
    · by_cases h2 : os.chdirOk (resources_path ep) = true
      · by_cases h3 : os.execOk (script_path ep) = true
        · right
          exact ⟨script_path ep, [script_path ep], resources_path ep,
            environ, by simp [run, hr, h1, h2, h3]⟩
        · left
          constructor
          · simp [run, hr, h1, h2, h3]
          · simp [run, hr, h1, h2, h3, msgExec]
      · left
        constructor
        · simp [run, hr, h1, h2]
        · simp [run, hr, h1, h2, msgChdir]
    · left
      constructor
      · simp [run, hr, h1]
      · simp [run, hr, h1]

/-! Claim C5. -/

/-- An OS oracle under which realpath succeeds on the typical bundled path,
the script exists, but chdir fails. -/
def osW5 : OS :=
  { realpath := fun _ => some epW,
    statOk := fun _ => true,
    chdirOk := fun _ => false,
    execOk := fun _ => true }

/-- Claim C5, counterexample: when chdir fails, the diagnostic is the fixed
chdir message, which does not contain the offending path (the resources
directory), refuting the claim for the ChdirError case. -/
theorem C5_counterexample :
    (run osW5 epW [] []).stderrMsgs = [msgChdir] ∧
    ¬ resources_path epW <:+: msgChdir := by
  refine ⟨by simp [run, osW5], by decide⟩

/-- Claim C5, amended: only the ScriptNotFoundError diagnostic contains the
offending path (the script path is interpolated into it). The
ResolutionError, ChdirError and ExecError diagnostics are fixed strings:
the chdir and exec diagnostics never contain their offending paths
(resources_path and script_path), and the resolution diagnostic contains
no path separator, so it never contains a slash-containing invocation
path. -/
theorem C5_diagnostics (os : OS) (argv0 : CStr) (argvRest : List CStr)
    (environ : Environ) :
    (os.realpath argv0 = none →
      (run os argv0 argvRest environ).stderrMsgs = [msgResolve] ∧
      (∀ c ∈ msgResolve, c ≠ '/') ∧
      ('/' ∈ argv0 → ¬ argv0 <:+: msgResolve)) ∧
    ∀ ep, os.realpath argv0 = some ep →
      (os.statOk (script_path ep) = false →
        (run os argv0 argvRest environ).stderrMsgs =
          [msgNotFound (script_path ep)] ∧
        script_path ep <:+: msgNotFound (script_path ep)) ∧
      (os.statOk (script_path ep) = true →
        os.chdirOk (resources_path ep) = false →
        (run os argv0 argvRest environ).stderrMsgs = [msgChdir] ∧
        ¬ resources_path ep <:+: msgChdir) ∧
      (os.statOk (script_path ep) = true →
        os.chdirOk (resources_path ep) = true →
        os.execOk (script_path ep) = false →
        (run os argv0 argvRest environ).stderrMsgs = [msgExec] ∧
        ¬ script_path ep <:+: msgExec) := by
  refine ⟨fun h0 => ⟨by simp [run, h0], by decide,
      fun hs hinf => absurd (hinf.sublist.subset hs) (by decide)⟩,
    fun ep hrp =>
      ⟨fun h1 => ⟨by simp [run, hrp, h1], ⟨msgNotFoundPre, ['\n'], rfl⟩⟩,
       fun h1 h2 =>
         ⟨by simp [run, hrp, h1, h2], resources_not_in_msgChdir ep⟩,
       fun h1 h2 h3 =>
         ⟨by simp [run, hrp, h1, h2, h3], script_not_in_msgExec ep⟩⟩⟩

/-- An OS oracle under which realpath itself fails. -/
def osWR : OS :=
  { realpath := fun _ => none,
    statOk := fun _ => false,
    chdirOk := fun _ => false,
    execOk := fun _ => false }

/-- Claim C5, witness: the amended theorem applied to the oracle whose
realpath fails (fixed separator-free diagnostic that cannot contain the
slash-containing invocation path) and to the oracle whose stat fails
(script-not-found diagnostic carrying the script path). -/
theorem C5_witness :
    ((run osWR epW2 [] []).stderrMsgs = [msgResolve] ∧
     (∀ c ∈ msgResolve, c ≠ '/') ∧
     ('/' ∈ epW2 → ¬ epW2 <:+: msgResolve)) ∧
    ((run osW2 epW2 [] []).stderrMsgs = [msgNotFound (script_path epW2)] ∧
     script_path epW2 <:+: msgNotFound (script_path epW2)) :=
  ⟨(C5_diagnostics osWR epW2 [] []).1 rfl,
   ((C5_diagnostics osW2 epW2 [] []).2 epW2 rfl).1 rfl⟩

/-! Claim C6. -/

/-- Claim C6: after a successful resolution the trace of OS calls is a
prefix of the duplicate-free sequence realpath, stat, chdir, exec, so the
steps run strictly in that order and none is retried; when stat fails the
trace stops at stat (no chdir, no exec), and when chdir fails the trace
stops at chdir (no exec). -/
theorem C6_step_order (os : OS) (argv0 : CStr) (argvRest : List CStr)
    (environ : Environ) (ep : CStr) (hrp : os.realpath argv0 = some ep) :
    (run os argv0 argvRest environ).trace <+:
      [Event.realpathCall argv0, Event.statCall (script_path ep),
       Event.chdirCall (resources_path ep),
       Event.execCall (script_path ep)] ∧
    (run os argv0 argvRest environ).trace.Nodup ∧
    (os.statOk (script_path ep) = false →
      (run os argv0 argvRest environ).trace =
        [Event.realpathCall argv0, Event.statCall (script_path ep)]) ∧
    (os.statOk (script_path ep) = true →
      os.chdirOk (resources_path ep) = false →
      (run os argv0 argvRest environ).trace =
        [Event.realpathCall argv0, Event.statCall (script_path ep),
         Event.chdirCall (resources_path ep)]) := by
  by_cases h1 : os.statOk (script_path ep) = true
  · by_cases h2 : os.chdirOk (resources_path ep) = true
    · have ht : (run os argv0 argvRest environ).trace =
          [Event.realpathCall argv0, Event.statCall (script_path ep),
           Event.chdirCall (resources_path ep),
           Event.execCall (script_path ep)] := by
        by_cases h3 : os.execOk (script_path ep) = true
        · simp [run, hrp, h1, h2, h3]
        · simp [run, hrp, h1, h2, h3]
      rw [ht]
      refine ⟨⟨[], List.append_nil _⟩, by simp, fun hf => ?_, fun _ hf => ?_⟩
      · rw [hf] at h1; exact Bool.noConfusion h1
      · rw [hf] at h2; exact Bool.noConfusion h2
    · have ht : (run os argv0 argvRest environ).trace =
          [Event.realpathCall argv0, Event.statCall (script_path ep),
           Event.chdirCall (resources_path ep)] := by
        simp [run, hrp, h1, h2]
      rw [ht]
      refine ⟨⟨[Event.execCall (script_path ep)], rfl⟩, by simp,
        fun hf => ?_, fun _ _ => rfl⟩
      rw [hf] at h1; exact Bool.noConfusion h1
  · have ht : (run os argv0 argvRest environ).trace =
        [Event.realpathCall argv0, Event.statCall (script_path ep)] := by
      simp [run, hrp, h1]
    rw [ht]
    refine ⟨⟨[Event.chdirCall (resources_path ep),
        Event.execCall (script_path ep)], rfl⟩, by simp,
      fun _ => rfl, fun hf => ?_⟩
    rw [hf] at h1; exact absurd rfl h1

/-- Claim C6, witness: the theorem applied to the oracle whose chdir fails,
giving the three-call trace that stops before exec. -/
theorem C6_witness :
    (run osW5 epW [] []).trace <+:
      [Event.realpathCall epW, Event.statCall (script_path epW),
       Event.chdirCall (resources_path epW),
       Event.execCall (script_path epW)] ∧
    (run osW5 epW [] []).trace.Nodup ∧
    (osW5.statOk (script_path epW) = false →
      (run osW5 epW [] []).trace =
        [Event.realpathCall epW, Event.statCall (script_path epW)]) ∧
    (osW5.statOk (script_path epW) = true →
      osW5.chdirOk (resources_path epW) = false →
      (run osW5 epW [] []).trace =
        [Event.realpathCall epW, Event.statCall (script_path epW),
         Event.chdirCall (resources_path epW)]) :=
  C6_step_order osW5 epW [] [] epW rfl

/-! Claim C7. -/

/-- Claim C7: after a successful resolution the script-not-found diagnostic
is emitted if and only if the stat metadata query on script_path fails; no
regular-file or executability check is made, and when the script is
stat-able but exec fails (for instance, the script is not executable), the
process exits with status 1 carrying the exec-specific diagnostic. -/
theorem C7_validator (os : OS) (argv0 : CStr) (argvRest : List CStr)
    (environ : Environ) (ep : CStr) (hrp : os.realpath argv0 = some ep) :
    ((run os argv0 argvRest environ).stderrMsgs =
        [msgNotFound (script_path ep)] ↔
      os.statOk (script_path ep) = false) ∧
    (os.statOk (script_path ep) = true →
      os.chdirOk (resources_path ep) = true →
      os.execOk (script_path ep) = false →
      (run os argv0 argvRest environ).outcome = Outcome.exited 1 ∧
      (run os argv0 argvRest environ).stderrMsgs = [msgExec]) := by
  constructor
  · constructor
    · intro h
      cases hb : os.statOk (script_path ep) with
      | false => rfl
      | true =>
        exfalso
        by_cases h2 : os.chdirOk (resources_path ep) = true
        · by_cases h3 : os.execOk (script_path ep) = true
          · simp [run, hrp, hb, h2, h3] at h
          · simp [run, hrp, hb, h2, h3] at h
            exact msgNotFound_ne_msgExec (script_path ep) h.symm
        · simp [run, hrp, hb, h2] at h
          exact msgNotFound_ne_msgChdir (script_path ep) h.symm
    · intro h
      simp [run, hrp, h]
  · intro h1 h2 h3
    constructor
    · simp [run, hrp, h1, h2, h3]
    · simp [run, hrp, h1, h2, h3]

/-- An OS oracle under which the script exists and chdir succeeds but exec
fails, as for an existing non-executable script. -/
def osW7 : OS :=
  { realpath := fun _ => some epW,
    statOk := fun _ => true,
    chdirOk := fun _ => true,
    execOk := fun _ => false }

/-- Claim C7, witness: the theorem applied to the oracle of an existing but
non-executable script: the validator passes and the run exits with status 1
and the exec diagnostic. -/
theorem C7_witness :
    ((run osW7 epW [] []).stderrMsgs = [msgNotFound (script_path epW)] ↔
      osW7.statOk (script_path epW) = false) ∧
    (osW7.statOk (script_path epW) = true →
      osW7.chdirOk (resources_path epW) = true →
      osW7.execOk (script_path epW) = false →
      (run osW7 epW [] []).outcome = Outcome.exited 1 ∧
      (run osW7 epW [] []).stderrMsgs = [msgExec]) :=
  C7_validator osW7 epW [] [] epW rfl

/-! Claim C8. -/

/-- Claim C8: after a successful resolution (the heap-allocated canonical
path buffer exists), every run that exits frees the buffer exactly once,
and the run that ends in process replacement does not free it (replacement
discards process memory): no leak and no double free on any exit path. -/
theorem C8_free_exactly_once (os : OS) (argv0 : CStr) (argvRest : List CStr)
    (environ : Environ) (ep : CStr) (hrp : os.realpath argv0 = some ep) :
    ((∃ s, (run os argv0 argvRest environ).outcome = Outcome.exited s) →
      (run os argv0 argvRest environ).frees = 1) ∧
    ((∃ img argv cwd env,
        (run os argv0 argvRest environ).outcome =
          Outcome.replaced img argv cwd env) →
      (run os argv0 argvRest environ).frees = 0) := by
  by_cases h1 : os.statOk (script_path ep) = true
  · by_cases h2 : os.chdirOk (resources_path ep) = true
    · by_cases h3 : os.execOk (script_path ep) = true
      · have ho : (run os argv0 argvRest environ).outcome =
            Outcome.replaced (script_path ep) [script_path ep]
              (resources_path ep) environ := by
          simp [run, hrp, h1, h2, h3]
        refine ⟨fun ⟨s, hs⟩ => ?_, fun _ => by simp [run, hrp, h1, h2, h3]⟩
        rw [ho] at hs
        exact Outcome.noConfusion hs
      · have ho : (run os argv0 argvRest environ).outcome =
            Outcome.exited 1 := by simp [run, hrp, h1, h2, h3]
        refine ⟨fun _ => by simp [run, hrp, h1, h2, h3],
          fun ⟨img, argv, cwd, env, hs⟩ => ?_⟩
        rw [ho] at hs
        exact Outcome.noConfusion hs
    · have ho : (run os argv0 argvRest environ).outcome =
          Outcome.exited 1 := by simp [run, hrp, h1, h2]
      refine ⟨fun _ => by simp [run, hrp, h1, h2],
        fun ⟨img, argv, cwd, env, hs⟩ => ?_⟩
      rw [ho] at hs
      exact Outcome.noConfusion hs
  · have ho : (run os argv0 argvRest environ).outcome =
        Outcome.exited 1 := by simp [run, hrp, h1]
    refine ⟨fun _ => by simp [run, hrp, h1],
      fun ⟨img, argv, cwd, env, hs⟩ => ?_⟩
    rw [ho] at hs
    exact Outcome.noConfusion hs

/-- Claim C8, witness: the theorem applied to the stat-failure oracle: the
run exits and the buffer is freed exactly once. -/
theorem C8_witness :
    ((∃ s, (run osW2 epW2 [] []).outcome = Outcome.exited s) →
      (run osW2 epW2 [] []).frees = 1) ∧
    ((∃ img argv cwd env,
        (run osW2 epW2 [] []).outcome =
          Outcome.replaced img argv cwd env) →
      (run osW2 epW2 [] []).frees = 0) :=
  C8_free_exactly_once osW2 epW2 [] [] epW2 rfl

/-! Claim C9. -/

/-- Claim C9: for every canonical executable path, of any length, the three
constructed buffers stay within their fixed 1024-byte capacity (at most
1023 characters plus the NUL terminator) and each holds a prefix of the
ideal string it formats: app_path is a prefix of the canonical path, and
resources_path and script_path are prefixes of the root plus the fixed
suffix, so truncation is possible but corruption or out-of-bounds writes
are not. -/
theorem C9_bounded_buffers (ep : CStr) :
    (app_path ep).length ≤ 1023 ∧ app_path ep <+: ep ∧
    (resources_path ep).length ≤ 1023 ∧
    resources_path ep <+: app_path ep ++ resourcesSuffix ∧
    (script_path ep).length ≤ 1023 ∧
    script_path ep <+: app_path ep ++ scriptSuffix := by
  have hsn : snprintf1024 ep <+: ep := take_pre 1023 ep
  have hsnl : (snprintf1024 ep).length ≤ 1023 := by
    rw [snprintf1024, List.length_take]
    omega
  have happ : (app_path ep).length ≤ 1023 ∧ app_path ep <+: ep := by
    cases hm : strstrMarker (snprintf1024 ep) with
    | none =>
      refine ⟨?_, ?_⟩
      · simp only [app_path, hm]
        exact hsnl
      · simp only [app_path, hm]
        exact hsn
    | some i =>
      refine ⟨?_, ?_⟩
      · simp only [app_path, hm]
        rw [List.length_take]
        omega
      · simp only [app_path, hm]
        exact (take_pre i (snprintf1024 ep)).trans hsn
  refine ⟨happ.1, happ.2, ?_, ?_, ?_, ?_⟩
  · rw [show resources_path ep =
      snprintf1024 (app_path ep ++ resourcesSuffix) from rfl,
      snprintf1024, List.length_take]
    omega
  · exact take_pre 1023 (app_path ep ++ resourcesSuffix)
  · rw [show script_path ep =
      snprintf1024 (app_path ep ++ scriptSuffix) from rfl,
      snprintf1024, List.length_take]
    omega
  · exact take_pre 1023 (app_path ep ++ scriptSuffix)

end Launcher
